import Mathlib

/-!
Verification development for the stats_analysis_tool repository.

The source is a pandas-based batch-transform layer over daily OHLCV data
(src/daily_returns.py, src/volatility_metrics.py, src/volume_metrics.py,
src/date_extraction.py).  Numeric columns are float series; the embedding
models a float value as an exact number, a signed infinity, or NaN, and a
pandas Series as a list of such values.  Rolling/shift combinators mirror
the pandas operations used by the source (shift(1), rolling(w).mean(),
rolling(w).std(), rolling(w).apply(...), elementwise arithmetic with its
IEEE division-by-zero and NaN-propagation behavior).
-/

set_option linter.unusedSectionVars false

namespace Stats

/-- A float value of the pandas pipeline: a finite (exact) number, a signed
infinity, or NaN, which pandas uses as its explicit undefined marker. -/
inductive Val (α : Type) where
  | fin (x : α)
  | posInf
  | negInf
  | nan
deriving DecidableEq, Repr

namespace Val

variable {α : Type} [LinearOrderedField α]

/-- Negation of a float value. -/
def neg : Val α → Val α
  | fin x => fin (-x)
  | posInf => negInf
  | negInf => posInf
  | nan => nan

/-- IEEE addition: NaN propagates, infinities of opposite sign give NaN. -/
def add : Val α → Val α → Val α
  | fin x, fin y => fin (x + y)
  | fin _, posInf => posInf
  | fin _, negInf => negInf
  | fin _, nan => nan
  | posInf, fin _ => posInf
  | posInf, posInf => posInf
  | posInf, negInf => nan
  | posInf, nan => nan
  | negInf, fin _ => negInf
  | negInf, posInf => nan
  | negInf, negInf => negInf
  | negInf, nan => nan
  | nan, _ => nan

/-- IEEE subtraction, as addition of the negation. -/
def sub (a b : Val α) : Val α := add a (neg b)

/-- IEEE multiplication: NaN propagates, zero times infinity is NaN. -/
def mul : Val α → Val α → Val α
  | fin x, fin y => fin (x * y)
  | fin x, posInf => if 0 < x then posInf else if x < 0 then negInf else nan
  | fin x, negInf => if 0 < x then negInf else if x < 0 then posInf else nan
  | fin _, nan => nan
  | posInf, fin y => if 0 < y then posInf else if y < 0 then negInf else nan
  | posInf, posInf => posInf
  | posInf, negInf => negInf
  | posInf, nan => nan
  | negInf, fin y => if 0 < y then negInf else if y < 0 then posInf else nan
  | negInf, posInf => negInf
  | negInf, negInf => posInf
  | negInf, nan => nan
  | nan, _ => nan

/-- IEEE division.  Division of a nonzero finite number by (positive) zero is
a signed infinity, 0/0 is NaN, a finite number over an infinity is 0, and an
infinity over an infinity is NaN.  The data model carries no negative zero:
the zeros appearing in the source's columns are plain (positive) zeros. -/
def div : Val α → Val α → Val α
  | fin x, fin y =>
      if y = 0 then (if 0 < x then posInf else if x < 0 then negInf else nan)
      else fin (x / y)
  | fin _, posInf => fin 0
  | fin _, negInf => fin 0
  | fin _, nan => nan
  | posInf, fin y => if 0 ≤ y then posInf else negInf
  | posInf, posInf => nan
  | posInf, negInf => nan
  | posInf, nan => nan
  | negInf, fin y => if 0 ≤ y then negInf else posInf
  | negInf, posInf => nan
  | negInf, negInf => nan
  | negInf, nan => nan
  | nan, _ => nan

/-- Absolute value (numpy.abs). -/
def abs : Val α → Val α
  | fin x => fin |x|
  | posInf => posInf
  | negInf => posInf
  | nan => nan

/-- Row-wise maximum with pandas skipna semantics (DataFrame.max(axis=1)):
NaN operands are skipped; the maximum of NaNs alone is NaN. -/
def maxSkip : Val α → Val α → Val α
  | fin x, fin y => fin (max x y)
  | fin x, negInf => fin x
  | fin _, posInf => posInf
  | fin x, nan => fin x
  | posInf, _ => posInf
  | negInf, fin y => fin y
  | negInf, posInf => posInf
  | negInf, negInf => negInf
  | negInf, nan => negInf
  | nan, fin y => fin y
  | nan, posInf => posInf
  | nan, negInf => negInf
  | nan, nan => nan

/-- Is this value finite? -/
def isFin : Val α → Bool
  | fin _ => true
  | _ => false

/-- Is this value NaN (pandas isna)? -/
def isNan : Val α → Bool
  | nan => true
  | _ => false

/-- The finite payload, when there is one. -/
def toFin : Val α → Option α
  | fin x => some x
  | _ => none

@[simp] theorem add_fin_fin (x y : α) : add (fin x) (fin y) = fin (x + y) := rfl

@[simp] theorem sub_fin_fin (x y : α) : sub (fin x) (fin y) = fin (x - y) := by
  simp [sub, add, neg, sub_eq_add_neg]

@[simp] theorem sub_fin_nan (x : α) : sub (fin x) nan = nan := rfl

@[simp] theorem sub_nan (v : Val α) : sub nan v = nan := rfl

@[simp] theorem abs_fin (x : α) : abs (fin x) = fin |x| := rfl

@[simp] theorem abs_nan : abs (nan : Val α) = nan := rfl

@[simp] theorem maxSkip_fin_fin (x y : α) :
    maxSkip (fin x) (fin y) = fin (max x y) := rfl

@[simp] theorem maxSkip_fin_nan (x : α) : maxSkip (fin x) nan = fin x := rfl

@[simp] theorem maxSkip_nan_fin (y : α) : maxSkip nan (fin y) = fin y := rfl

@[simp] theorem maxSkip_nan_nan : maxSkip (nan : Val α) nan = nan := rfl

@[simp] theorem mul_fin_fin (x y : α) : mul (fin x) (fin y) = fin (x * y) := rfl

@[simp] theorem mul_fin_nan (x : α) : mul (fin x) nan = nan := rfl

theorem div_fin_fin_of_ne (x y : α) (hy : y ≠ 0) :
    div (fin x) (fin y) = fin (x / y) := by
  simp [div, hy]

theorem div_fin_fin_zero (x : α) :
    div (fin x) (fin 0) =
      (if 0 < x then posInf else if x < 0 then negInf else nan) := by
  simp [div]

@[simp] theorem div_nan (v : Val α) : div nan v = nan := rfl

@[simp] theorem div_fin_nan (x : α) : div (fin x) nan = nan := rfl

@[simp] theorem isFin_fin (x : α) : isFin (fin x) = true := rfl

@[simp] theorem isNan_fin (x : α) : isNan (fin x) = false := rfl

@[simp] theorem isNan_nan : isNan (nan : Val α) = true := rfl

end Val

/-- A pandas Series of float values, one per row, index-aligned with its
source table. -/
abbrev Series (α : Type) := List (Val α)

variable {α : Type} [LinearOrderedField α]

/-- A numeric table column (finite real data), viewed as a Series. -/
def lift (xs : List α) : Series α := xs.map Val.fin

/-- Series.shift(1): row 0 becomes NaN, row i takes the value of row i-1,
the length is unchanged. -/
def shift1 (s : Series α) : Series α := (Val.nan :: s).take s.length

/-- Elementwise combination of two index-aligned Series. -/
def ewise (f : Val α → Val α → Val α) (s t : Series α) : Series α :=
  List.zipWith f s t

/-- The trailing window of w rows ending at (and including) row i. -/
def window (s : List β) (w i : ℕ) : List β := (s.take (i + 1)).drop (i + 1 - w)

/-- Mean of one rolling window: the sum of its values divided by its
length, with NaN propagating through the sum exactly as a float sum does. -/
def windowMean (win : Series α) : Val α :=
  (win.foldr Val.add (Val.fin 0)).div (Val.fin (win.length : α))

/-- Series.rolling(window=w).mean() with the default min_periods = w: the
first w-1 rows are NaN, every other row is the mean of its trailing window
(NaN if the window contains a NaN, since fewer than w observations remain). -/
def rollingMean (s : Series α) (w : ℕ) : Series α :=
  (List.range s.length).map
    (fun i => if w = 0 ∨ i + 1 < w then Val.nan else windowMean (window s w i))

@[simp] theorem lift_length (xs : List α) : (lift xs).length = xs.length :=
  List.length_map _ _

@[simp] theorem shift1_length (s : Series α) : (shift1 s).length = s.length := by
  simp [shift1]

@[simp] theorem ewise_length (f : Val α → Val α → Val α) (s t : Series α) :
    (ewise f s t).length = min s.length t.length := by
  simp [ewise]

@[simp] theorem rollingMean_length (s : Series α) (w : ℕ) :
    (rollingMean s w).length = s.length := by
  simp [rollingMean]

theorem lift_getElem? (xs : List α) (i : ℕ) :
    (lift xs)[i]? = xs[i]?.map Val.fin := by
  simp [lift]

theorem shift1_getElem?_zero (s : Series α) (h : 0 < s.length) :
    (shift1 s)[0]? = some Val.nan := by
  cases s with
  | nil => simp at h
  | cons a t => simp [shift1]

theorem shift1_getElem?_succ (s : Series α) (i : ℕ) (h : i + 1 < s.length) :
    (shift1 s)[i + 1]? = s[i]? := by
  have : (Val.nan :: s)[i + 1]? = s[i]? := by simp
  rw [shift1, List.getElem?_take_of_lt h, this]

theorem ewise_getElem? (f : Val α → Val α → Val α) (s t : Series α) (i : ℕ) :
    (ewise f s t)[i]? = ((s[i]?).map f).bind fun g => (t[i]?).map g := by
  simp [ewise, List.getElem?_zipWith']

theorem rollingMean_getElem? (s : Series α) (w i : ℕ) (h : i < s.length) :
    (rollingMean s w)[i]? =
      some (if w = 0 ∨ i + 1 < w then Val.nan else windowMean (window s w i)) := by
  simp [rollingMean, List.getElem?_range, h]

theorem window_length (s : List β) (w i : ℕ) (hwi : w ≤ i + 1) (hi : i < s.length) :
    (window s w i).length = w := by
  simp [window]
  omega

theorem window_getElem? (s : List β) (w i k : ℕ) (hk : k < w) (hwi : w ≤ i + 1) :
    (window s w i)[k]? = s[i + 1 - w + k]? := by
  rw [window, List.getElem?_drop, List.getElem?_take_of_lt (by omega)]

theorem getD_eq_getElem?_getD (l : List β) (n : ℕ) (d : β) :
    l.getD n d = (l[n]?).getD d := by
  rw [List.getD_eq_getD_get?, List.get?_eq_getElem?]

/-- The window of a lifted column is the lifted window. -/
theorem window_lift (xs : List α) (w i : ℕ) :
    window (lift xs) w i = lift (window xs w i) := by
  simp [window, lift, List.map_take, List.map_drop]

/-- Summing a lifted window with float addition gives the exact sum. -/
theorem foldr_add_lift (l : List α) :
    (lift l).foldr Val.add (Val.fin 0) = Val.fin l.sum := by
  induction l with
  | nil => simp [lift]
  | cons x t ih => simp [lift] at ih ⊢; rw [ih]; simp

/-- Value of a rolling mean of a lifted (all-finite) column at a defined row. -/
theorem rollingMean_lift_getD (xs : List α) (w i : ℕ) (hw : 0 < w)
    (hwi : w ≤ i + 1) (hi : i < xs.length) :
    (rollingMean (lift xs) w).getD i Val.nan = Val.fin ((window xs w i).sum / w) := by
  rw [getD_eq_getElem?_getD, rollingMean_getElem? _ _ _ (by simpa using hi)]
  have hcond : ¬(w = 0 ∨ i + 1 < w) := by omega
  rw [if_neg hcond]
  rw [window_lift, windowMean, foldr_add_lift]
  have hlen : (lift (window xs w i)).length = w := by
    rw [lift_length, window_length xs w i hwi hi]
  rw [hlen, Val.div_fin_fin_of_ne _ _ (by exact_mod_cast hw.ne')]
  rfl

/-- Rolling mean rows with fewer than w preceding observations are NaN. -/
theorem rollingMean_getD_nan (s : Series α) (w i : ℕ) (h : i + 1 < w ∨ w = 0)
    (hi : i < s.length) : (rollingMean s w).getD i Val.nan = Val.nan := by
  rw [getD_eq_getElem?_getD, rollingMean_getElem? _ _ _ hi, if_pos (by omega)]
  rfl

/-- src/daily_returns.py, calculate_daily_returns: df['close'].pct_change(),
i.e. elementwise close / close.shift(1) - 1. -/
def calculate_daily_returns (close : List α) : Series α :=
  (ewise Val.div (lift close) (shift1 (lift close))).map (fun v => v.sub (Val.fin 1))

@[simp] theorem calculate_daily_returns_length (close : List α) :
    (calculate_daily_returns close).length = close.length := by
  simp [calculate_daily_returns]

theorem calculate_daily_returns_getElem?_zero (close : List α)
    (h : 0 < close.length) :
    (calculate_daily_returns close)[0]? = some Val.nan := by
  rw [calculate_daily_returns, List.getElem?_map, ewise_getElem?,
    shift1_getElem?_zero _ (by simpa using h), lift_getElem?,
    List.getElem?_eq_getElem h]
  rfl

theorem calculate_daily_returns_getElem?_succ (close : List α) (i : ℕ)
    (h : i + 1 < close.length) :
    (calculate_daily_returns close)[i + 1]? =
      some (((Val.fin (close.getD (i + 1) 0)).div
        (Val.fin (close.getD i 0))).sub (Val.fin 1)) := by
  rw [calculate_daily_returns, List.getElem?_map, ewise_getElem?,
    shift1_getElem?_succ _ _ (by simpa using h), lift_getElem?, lift_getElem?,
    List.getElem?_eq_getElem h, List.getElem?_eq_getElem (by omega : i < close.length),
    List.getD_eq_getElem _ _ h, List.getD_eq_getElem _ _ (by omega : i < close.length)]
  rfl

/-- The pct_change value at a zero previous close: a signed infinity, or NaN
when the current value is also zero. -/
theorem div_zero_sub_one (a : α) :
    ((Val.fin a).div (Val.fin 0)).sub (Val.fin 1) =
      (if 0 < a then Val.posInf else if a < 0 then Val.negInf else Val.nan) := by
  rw [Val.div_fin_fin_zero]
  split_ifs <;> rfl

/-- C1: for every input table with a close column, calculate_daily_returns
returns a series of the same length whose row 0 is undefined (NaN) and whose
row i (i>0) equals (close[i]-close[i-1])/close[i-1]; when close[i-1] = 0 the
result is a signed infinity (NaN when close[i] is also 0), not an error. -/
theorem claim_C1_daily_returns (close : List ℚ) :
    (calculate_daily_returns close).length = close.length ∧
    (0 < close.length → (calculate_daily_returns close).getD 0 Val.nan = Val.nan) ∧
    (∀ i, 0 < i → i < close.length →
      (calculate_daily_returns close).getD i Val.nan =
        if close.getD (i - 1) 0 = 0 then
          (if 0 < close.getD i 0 then Val.posInf
           else if close.getD i 0 < 0 then Val.negInf
           else Val.nan)
        else Val.fin ((close.getD i 0 - close.getD (i - 1) 0) /
          close.getD (i - 1) 0)) := by
  refine ⟨by simp, ?_, ?_⟩
  · intro h
    rw [getD_eq_getElem?_getD, calculate_daily_returns_getElem?_zero _ h]
    rfl
  · intro i h0 hi
    obtain ⟨j, rfl⟩ : ∃ j, i = j + 1 := ⟨i - 1, by omega⟩
    rw [getD_eq_getElem?_getD, calculate_daily_returns_getElem?_succ _ j hi]
    simp only [Option.getD_some, Nat.add_sub_cancel]
    by_cases hb : close.getD j 0 = 0
    · rw [hb, if_pos rfl, div_zero_sub_one]
    · rw [Val.div_fin_fin_of_ne _ _ hb, if_neg hb, Val.sub_fin_fin]
      congr 1
      have hb2 : close[j]?.getD 0 ≠ 0 := by
        rw [← getD_eq_getElem?_getD]; exact hb
      field_simp

/-- Witness for C1, at the concrete table close = [4, 6] and row 1. -/
theorem claim_C1_daily_returns_witness :
    (calculate_daily_returns [(4 : ℚ), 6]).getD 1 Val.nan = Val.fin (1 / 2) := by
  have h := (claim_C1_daily_returns [(4 : ℚ), 6]).2.2 1 (by decide) (by decide)
  exact h.trans (by norm_num)

/-- src/volatility_metrics.py, calculate_atr: the three true-range
components (high-low, |high-prev close|, |low-prev close|), their row-wise
skipna maximum, then rolling(w).mean(). -/
def calculate_atr (high low close : List α) (w : ℕ) : Series α :=
  let high_low := ewise Val.sub (lift high) (lift low)
  let high_prev_close :=
    (ewise Val.sub (lift high) (shift1 (lift close))).map Val.abs
  let low_prev_close :=
    (ewise Val.sub (lift low) (shift1 (lift close))).map Val.abs
  let true_range :=
    ewise Val.maxSkip (ewise Val.maxSkip high_low high_prev_close) low_prev_close
  rollingMean true_range w

/-- The true range at row j in closed form: high-low alone at row 0 (the
previous-close spans are NaN there and skipped by the max), and the maximum
of the three spans at every later row. -/
def trueRangeAt (high low close : List α) (j : ℕ) : α :=
  if j = 0 then high.getD 0 0 - low.getD 0 0
  else
    max (max (high.getD j 0 - low.getD j 0)
        |high.getD j 0 - close.getD (j - 1) 0|)
      |low.getD j 0 - close.getD (j - 1) 0|

/-- The true-range pipeline of calculate_atr equals the lifted closed form. -/
theorem true_range_eq (high low close : List α) (n : ℕ)
    (hh : high.length = n) (hl : low.length = n) (hc : close.length = n) :
    ewise Val.maxSkip
        (ewise Val.maxSkip (ewise Val.sub (lift high) (lift low))
          ((ewise Val.sub (lift high) (shift1 (lift close))).map Val.abs))
        ((ewise Val.sub (lift low) (shift1 (lift close))).map Val.abs) =
      lift ((List.range n).map (trueRangeAt high low close)) := by
  apply List.ext_getElem?
  intro i
  by_cases hi : i < n
  · have hhi : i < high.length := by omega
    have hli : i < low.length := by omega
    have hci : i < close.length := by omega
    cases i with
    | zero =>
      simp only [ewise_getElem?, List.getElem?_map, lift_getElem?]
      rw [shift1_getElem?_zero (lift close)
        (by simpa using (show 0 < close.length by omega))]
      simp [trueRangeAt, List.getElem?_eq_getElem hhi,
        List.getElem?_eq_getElem hli, List.getElem?_range hi,
        List.getD_eq_getElem _ _ hhi, List.getD_eq_getElem _ _ hli]
    | succ j =>
      have hcj : j < close.length := by omega
      simp only [ewise_getElem?, List.getElem?_map, lift_getElem?]
      rw [shift1_getElem?_succ (lift close) j
        (by simpa using (show j + 1 < close.length by omega)), lift_getElem?]
      simp [trueRangeAt, List.getElem?_eq_getElem hhi,
        List.getElem?_eq_getElem hli, List.getElem?_eq_getElem hcj,
        List.getElem?_range hi, List.getD_eq_getElem _ _ hhi,
        List.getD_eq_getElem _ _ hli, List.getD_eq_getElem _ _ hcj]
  · rw [List.getElem?_eq_none, List.getElem?_eq_none]
    · simp only [lift_length, List.length_map, List.length_range]; omega
    · simp only [ewise_length, List.length_map, lift_length, shift1_length]
      omega

/-- calculate_atr is the rolling mean of the lifted closed-form true range. -/
theorem calculate_atr_eq (high low close : List α) (w n : ℕ)
    (hh : high.length = n) (hl : low.length = n) (hc : close.length = n) :
    calculate_atr high low close w =
      rollingMean (lift ((List.range n).map (trueRangeAt high low close))) w := by
  rw [calculate_atr, true_range_eq high low close n hh hl hc]

/-- A trailing window taken from a closed-form list is the closed form over
local window indices. -/
theorem window_range_map (f : ℕ → β) (n w i : ℕ) (hwi : w ≤ i + 1) (hi : i < n) :
    window ((List.range n).map f) w i =
      (List.range w).map (fun k => f (i + 1 - w + k)) := by
  apply List.ext_getElem?
  intro k
  by_cases hk : k < w
  · rw [window_getElem? _ _ _ _ hk hwi, List.getElem?_map, List.getElem?_map,
      List.getElem?_range hk, List.getElem?_range (by omega : i + 1 - w + k < n)]
    rfl
  · rw [List.getElem?_eq_none, List.getElem?_eq_none]
    · simpa using by omega
    · rw [window_length _ _ _ hwi (by simpa using hi)]; omega

/-- C2: for every table with high/low/close columns and positive window w,
calculate_atr has the table's length, its first w-1 rows are undefined, each
later row is the trailing simple moving average over w rows of the
closed-form true range (row 0 of which uses only high-low, the
previous-close spans being excluded there), and a window exceeding the
table length leaves every output undefined. -/
theorem claim_C2_atr (high low close : List ℚ) (w n : ℕ) (hw : 0 < w)
    (hh : high.length = n) (hl : low.length = n) (hc : close.length = n) :
    (calculate_atr high low close w).length = n ∧
    (∀ i < n, i + 1 < w →
      (calculate_atr high low close w).getD i Val.nan = Val.nan) ∧
    (∀ i < n, w ≤ i + 1 →
      (calculate_atr high low close w).getD i Val.nan =
        Val.fin ((((List.range w).map
          (fun k => trueRangeAt high low close (i + 1 - w + k))).sum) / w)) ∧
    (n < w → ∀ i, (calculate_atr high low close w).getD i Val.nan = Val.nan) := by
  rw [calculate_atr_eq high low close w n hh hl hc]
  refine ⟨by simp, ?_, ?_, ?_⟩
  · intro i hi hiw
    exact rollingMean_getD_nan _ w i (Or.inl hiw) (by simpa using hi)
  · intro i hi hwi
    rw [rollingMean_lift_getD _ w i hw hwi (by simpa using hi),
      window_range_map _ n w i hwi hi]
  · intro hnw i
    by_cases hi : i < n
    · exact rollingMean_getD_nan _ w i (Or.inl (by omega)) (by simpa using hi)
    · rw [getD_eq_getElem?_getD, List.getElem?_eq_none]
      · rfl
      · simp; omega

/-- Witness for C2 at high=[2,3], low=[1,1], close=[2,2], w=1, row 0. -/
theorem claim_C2_atr_witness :
    (calculate_atr [(2 : ℚ), 3] [1, 1] [2, 2] 1).getD 0 Val.nan = Val.fin 1 := by
  have h := (claim_C2_atr [(2 : ℚ), 3] [1, 1] [2, 2] 1 2 (by decide)
    rfl rfl rfl).2.2.1 0 (by decide) (by decide)
  refine h.trans ?_
  norm_num [trueRangeAt, List.range_succ]

/-- C3 counterexample: high=[1,2], low=[1,1], close=[1,2] is a non-constant
input (1 ≠ 2) with positive window 1, yet the defined ATR output at row 0 is
exactly 0, which is not strictly positive. -/
theorem claim_C3_counterexample :
    (calculate_atr [(1 : ℚ), 2] [1, 1] [1, 2] 1).getD 0 Val.nan = Val.fin 0 ∧
    (1 : ℚ) ≠ 2 ∧ ¬ (0 : ℚ) < 0 := by
  refine ⟨?_, by norm_num, by norm_num⟩
  rw [calculate_atr_eq [(1 : ℚ), 2] [1, 1] [1, 2] 1 2 rfl rfl rfl,
    rollingMean_lift_getD _ 1 0 (by decide) (by decide) (by simp),
    window_range_map _ 2 1 0 (by decide) (by decide)]
  norm_num [trueRangeAt, List.range_succ]

/-- C3 amended: for every input table whose rows are non-degenerate candles
(low strictly below high at every row) and every window, every defined
output of calculate_atr is strictly positive. -/
theorem claim_C3_atr_positive (high low close : List ℚ) (w n : ℕ)
    (hh : high.length = n) (hl : low.length = n) (hc : close.length = n)
    (hpos : ∀ j < n, low.getD j 0 < high.getD j 0) :
    ∀ i x, (calculate_atr high low close w).getD i Val.nan = Val.fin x → 0 < x := by
  intro i x hx
  rw [calculate_atr_eq high low close w n hh hl hc] at hx
  by_cases hi : i < n
  · by_cases hcond : w = 0 ∨ i + 1 < w
    · rw [rollingMean_getD_nan _ w i (by omega) (by simpa using hi)] at hx
      simp at hx
    · push_neg at hcond
      obtain ⟨hw0, hwi⟩ := hcond
      rw [rollingMean_lift_getD _ w i (by omega) (by omega) (by simpa using hi),
        window_range_map _ n w i (by omega) hi] at hx
      rw [Val.fin.injEq] at hx
      rw [← hx]
      apply div_pos
      · apply List.sum_pos
        · intro y hy
          simp only [List.mem_map, List.mem_range] at hy
          obtain ⟨k, hk, rfl⟩ := hy
          have hj : i + 1 - w + k < n := by omega
          have hn0 : 0 < n := by omega
          unfold trueRangeAt
          split_ifs with h0
          · have := hpos 0 hn0
            linarith
          · have := hpos _ hj
            exact lt_of_lt_of_le (by linarith)
              ((le_max_left _ _).trans (le_max_left _ _))
        · simp only [ne_eq, List.map_eq_nil_iff, List.range_eq_nil]
          omega
      · exact_mod_cast Nat.pos_of_ne_zero hw0
  · rw [getD_eq_getElem?_getD, List.getElem?_eq_none (by simp; omega)] at hx
    simp at hx

/-- Witness for C3 at high=[2], low=[1], close=[5], w=1. -/
theorem claim_C3_atr_positive_witness :
    (calculate_atr [(2 : ℚ)] [1] [5] 1).getD 0 Val.nan = Val.fin 1 ∧
    (0 : ℚ) < 1 := by
  have heval : (calculate_atr [(2 : ℚ)] [1] [5] 1).getD 0 Val.nan = Val.fin 1 := by
    rw [calculate_atr_eq [(2 : ℚ)] [1] [5] 1 1 rfl rfl rfl,
      rollingMean_lift_getD _ 1 0 (by decide) (by decide) (by simp),
      window_range_map _ 1 1 0 (by decide) (by decide)]
    norm_num [trueRangeAt, List.range_succ]
  refine ⟨heval, claim_C3_atr_positive [(2 : ℚ)] [1] [5] 1 1 rfl rfl rfl
    ?_ 0 1 heval⟩
  intro j hj
  obtain rfl : j = 0 := by omega
  norm_num

@[simp] theorem add_fin_nan (x : α) : Val.add (Val.fin x) Val.nan = Val.nan := rfl

@[simp] theorem add_nan (v : Val α) : Val.add Val.nan v = Val.nan := rfl

@[simp] theorem sub_nan_nan : Val.sub (Val.nan : Val α) Val.nan = Val.nan := rfl

@[simp] theorem div_nan_fin (x : α) : Val.div Val.nan (Val.fin x) = Val.nan := rfl

@[simp] theorem lift_all_isFin (l : List α) : (lift l).all Val.isFin = true := by
  induction l <;> simp_all [lift]

@[simp] theorem lift_filterMap_toFin (l : List α) :
    (lift l).filterMap Val.toFin = l := by
  induction l <;> simp_all [lift, Val.toFin]

theorem getElem?_eq_some_getD (l : List β) (i : ℕ) (d : β) (hi : i < l.length) :
    l[i]? = some (l.getD i d) := by
  rw [List.getElem?_eq_getElem hi, List.getD_eq_getElem _ _ hi]

theorem getD_of_getElem? (l : List β) (i : ℕ) (d v : β) (h : l[i]? = some v) :
    l.getD i d = v := by
  rw [getD_eq_getElem?_getD, h]
  rfl

/-- Mean of a list of numbers (the float mean of a full window). -/
def listMean (l : List α) : α := l.sum / l.length

/-- Sample variance with ddof = 1, the pandas default.  Callers guard
windows of fewer than 2 observations with NaN exactly as pandas does. -/
def sampleVar (l : List α) : α :=
  (l.map (fun x => (x - listMean l) ^ 2)).sum / ((l.length : α) - 1)

/-- Sample standard deviation: square root of the sample variance. -/
noncomputable def sampleStd (l : List ℝ) : ℝ := Real.sqrt (sampleVar l)

/-- Series.rolling(window=w).std() (sample std, ddof = 1): NaN for the first
w-1 rows, NaN everywhere when the window holds fewer than 2 observations
(w < 2), NaN where the window contains a non-finite value; elsewhere the
sample standard deviation of the window. -/
noncomputable def rollingStd (s : Series ℝ) (w : ℕ) : Series ℝ :=
  (List.range s.length).map
    (fun i =>
      if w < 2 ∨ i + 1 < w then Val.nan
      else if (window s w i).all Val.isFin then
        Val.fin (sampleStd ((window s w i).filterMap Val.toFin))
      else Val.nan)

/-- The result table of calculate_bollinger_bands: three named series. -/
structure BollingerBands where
  middle_band : Series ℝ
  upper_band : Series ℝ
  lower_band : Series ℝ

/-- src/volatility_metrics.py, calculate_bollinger_bands: middle band is
the rolling mean of close, upper/lower bands are middle plus/minus
num_std_dev times the rolling sample std of close. -/
noncomputable def calculate_bollinger_bands (close : List ℝ) (w : ℕ) (k : ℝ) :
    BollingerBands :=
  let middle := rollingMean (lift close) w
  let sd := rollingStd (lift close) w
  { middle_band := middle
    upper_band := ewise Val.add middle (sd.map (fun v => Val.mul (Val.fin k) v))
    lower_band := ewise Val.sub middle (sd.map (fun v => Val.mul (Val.fin k) v)) }

/-- src/volatility_metrics.py, calculate_bollinger_bands_width:
(upper - lower) / middle, elementwise over the three Bollinger series. -/
noncomputable def calculate_bollinger_bands_width (close : List ℝ) (w : ℕ)
    (k : ℝ) : Series ℝ :=
  let b := calculate_bollinger_bands close w k
  ewise Val.div (ewise Val.sub b.upper_band b.lower_band) b.middle_band

@[simp] theorem bollinger_middle_length (close : List ℝ) (w : ℕ) (k : ℝ) :
    (calculate_bollinger_bands close w k).middle_band.length = close.length := by
  simp [calculate_bollinger_bands]

@[simp] theorem rollingStd_length (s : Series ℝ) (w : ℕ) :
    (rollingStd s w).length = s.length := by
  simp [rollingStd]

@[simp] theorem bollinger_upper_length (close : List ℝ) (w : ℕ) (k : ℝ) :
    (calculate_bollinger_bands close w k).upper_band.length = close.length := by
  simp [calculate_bollinger_bands]

@[simp] theorem bollinger_lower_length (close : List ℝ) (w : ℕ) (k : ℝ) :
    (calculate_bollinger_bands close w k).lower_band.length = close.length := by
  simp [calculate_bollinger_bands]

@[simp] theorem bollinger_width_length (close : List ℝ) (w : ℕ) (k : ℝ) :
    (calculate_bollinger_bands_width close w k).length = close.length := by
  simp [calculate_bollinger_bands_width]

theorem rollingMean_lift_getElem? (xs : List α) (w i : ℕ) (hw : 0 < w)
    (hwi : w ≤ i + 1) (hi : i < xs.length) :
    (rollingMean (lift xs) w)[i]? =
      some (Val.fin ((window xs w i).sum / w)) := by
  rw [getElem?_eq_some_getD _ _ Val.nan (by simpa using hi),
    rollingMean_lift_getD xs w i hw hwi hi]

theorem rollingStd_lift_getElem? (xs : List ℝ) (w i : ℕ) (h2 : 2 ≤ w)
    (hwi : w ≤ i + 1) (hi : i < xs.length) :
    (rollingStd (lift xs) w)[i]? =
      some (Val.fin (sampleStd (window xs w i))) := by
  rw [rollingStd, List.getElem?_map, List.getElem?_range (by simpa using hi)]
  simp only [Option.map_some']
  rw [if_neg (by omega), window_lift]
  simp [lift_all_isFin, lift_filterMap_toFin]

theorem rollingStd_getElem?_nan (s : Series ℝ) (w i : ℕ)
    (h : w < 2 ∨ i + 1 < w) (hi : i < s.length) :
    (rollingStd s w)[i]? = some Val.nan := by
  rw [rollingStd, List.getElem?_map, List.getElem?_range hi]
  simp only [Option.map_some']
  rw [if_pos h]

theorem rollingMean_getElem?_nan (s : Series α) (w i : ℕ)
    (h : i + 1 < w ∨ w = 0) (hi : i < s.length) :
    (rollingMean s w)[i]? = some Val.nan := by
  rw [rollingMean_getElem? s w i hi, if_pos (by omega)]

/-- The three Bollinger series in the undefined prefix (w = 0 or fewer than
w observations): all NaN. -/
theorem bands_regime_A (close : List ℝ) (w : ℕ) (k : ℝ) (i : ℕ)
    (hA : w = 0 ∨ i + 1 < w) (hi : i < close.length) :
    (calculate_bollinger_bands close w k).middle_band[i]? = some Val.nan ∧
    (calculate_bollinger_bands close w k).upper_band[i]? = some Val.nan ∧
    (calculate_bollinger_bands close w k).lower_band[i]? = some Val.nan := by
  have hm : (rollingMean (lift close) w)[i]? = some Val.nan :=
    rollingMean_getElem?_nan _ w i (by omega) (by simpa using hi)
  have hs : (rollingStd (lift close) w)[i]? = some Val.nan :=
    rollingStd_getElem?_nan _ w i (by omega) (by simpa using hi)
  refine ⟨hm, ?_, ?_⟩ <;>
  · simp only [calculate_bollinger_bands]
    rw [ewise_getElem?, hm, List.getElem?_map, hs]
    rfl

/-- With w = 1 the middle band is defined but the rolling std is NaN, so
the upper and lower bands are NaN at every row. -/
theorem bands_regime_B (close : List ℝ) (w : ℕ) (k : ℝ) (i : ℕ)
    (hw : w = 1) (hi : i < close.length) :
    (calculate_bollinger_bands close w k).middle_band[i]? =
      some (Val.fin ((window close w i).sum / w)) ∧
    (calculate_bollinger_bands close w k).upper_band[i]? = some Val.nan ∧
    (calculate_bollinger_bands close w k).lower_band[i]? = some Val.nan := by
  subst hw
  have hm := rollingMean_lift_getElem? close 1 i (by omega) (by omega) hi
  have hs : (rollingStd (lift close) 1)[i]? = some Val.nan :=
    rollingStd_getElem?_nan _ 1 i (by omega) (by simpa using hi)
  refine ⟨hm, ?_, ?_⟩ <;>
  · simp only [calculate_bollinger_bands]
    rw [ewise_getElem?, hm, List.getElem?_map, hs]
    rfl

/-- With 2 ≤ w ≤ i+1 all three Bollinger series are defined, with the
middle the window mean and the upper/lower offset by k times the window
sample standard deviation. -/
theorem bands_regime_C (close : List ℝ) (w : ℕ) (k : ℝ) (i : ℕ)
    (h2 : 2 ≤ w) (hwi : w ≤ i + 1) (hi : i < close.length) :
    (calculate_bollinger_bands close w k).middle_band[i]? =
      some (Val.fin ((window close w i).sum / w)) ∧
    (calculate_bollinger_bands close w k).upper_band[i]? =
      some (Val.fin ((window close w i).sum / w +
        k * sampleStd (window close w i))) ∧
    (calculate_bollinger_bands close w k).lower_band[i]? =
      some (Val.fin ((window close w i).sum / w -
        k * sampleStd (window close w i))) := by
  have hm : (rollingMean (lift close) w)[i]? =
      some (Val.fin ((window close w i).sum / w)) :=
    rollingMean_lift_getElem? close w i (by omega) hwi hi
  have hs : (rollingStd (lift close) w)[i]? =
      some (Val.fin (sampleStd (window close w i))) :=
    rollingStd_lift_getElem? close w i h2 hwi hi
  refine ⟨hm, ?_, ?_⟩ <;>
  · simp only [calculate_bollinger_bands]
    rw [ewise_getElem?, hm, List.getElem?_map, hs]
    rfl

/-- The band width is NaN wherever w = 0, the row is inside the undefined
prefix, or w = 1 (NaN std). -/
theorem width_regime_nan (close : List ℝ) (w : ℕ) (k : ℝ) (i : ℕ)
    (h : w = 0 ∨ i + 1 < w ∨ w = 1) (hi : i < close.length) :
    (calculate_bollinger_bands_width close w k)[i]? = some Val.nan := by
  by_cases hA : w = 0 ∨ i + 1 < w
  · obtain ⟨hm, hu, hl⟩ := bands_regime_A close w k i hA hi
    simp only [calculate_bollinger_bands_width]
    rw [ewise_getElem?, ewise_getElem?, hu, hl, hm]
    rfl
  · have hw : w = 1 := by omega
    obtain ⟨hm, hu, hl⟩ := bands_regime_B close w k i hw hi
    simp only [calculate_bollinger_bands_width]
    rw [ewise_getElem?, ewise_getElem?, hu, hl, hm]
    rfl

/-- The band width at a fully defined row: (2 k std) divided by the window
mean, with the float division semantics. -/
theorem width_regime_C (close : List ℝ) (w : ℕ) (k : ℝ) (i : ℕ)
    (h2 : 2 ≤ w) (hwi : w ≤ i + 1) (hi : i < close.length) :
    (calculate_bollinger_bands_width close w k)[i]? =
      some (Val.div (Val.fin (2 * (k * sampleStd (window close w i))))
        (Val.fin ((window close w i).sum / w))) := by
  obtain ⟨hm, hu, hl⟩ := bands_regime_C close w k i h2 hwi hi
  simp only [calculate_bollinger_bands_width]
  rw [ewise_getElem?, ewise_getElem?, hu, hl, hm]
  simp only [Option.map_some', Option.some_bind, Val.sub_fin_fin]
  have harith : (window close w i).sum / w + k * sampleStd (window close w i) -
      ((window close w i).sum / w - k * sampleStd (window close w i)) =
      2 * (k * sampleStd (window close w i)) := by ring
  rw [harith]

/-- A list sum is positive when all entries are nonnegative and some entry
is positive. -/
theorem sum_pos_of_mem : ∀ (l : List ℝ), (∀ y ∈ l, 0 ≤ y) →
    ∀ x, x ∈ l → 0 < x → 0 < l.sum
  | [], _, x, hx, _ => by simp at hx
  | a :: t, h0, x, hx, hxp => by
    rw [List.sum_cons]
    rcases List.mem_cons.mp hx with rfl | hmem
    · have ht : 0 ≤ t.sum :=
        List.sum_nonneg (fun y hy => h0 y (List.mem_cons_of_mem _ hy))
      linarith
    · have ha : 0 ≤ a := h0 a (List.mem_cons_self a t)
      have ht := sum_pos_of_mem t
        (fun y hy => h0 y (List.mem_cons_of_mem _ hy)) x hmem hxp
      linarith

/-- The sample variance of a list with at least 2 entries, two of which
differ, is strictly positive. -/
theorem sampleVar_pos (l : List ℝ) (h2 : 2 ≤ l.length) (a b : ℝ)
    (ha : a ∈ l) (hb : b ∈ l) (hab : a ≠ b) : 0 < sampleVar l := by
  simp only [sampleVar]
  apply div_pos
  · have hne : a ≠ listMean l ∨ b ≠ listMean l := by
      by_contra h
      push_neg at h
      exact hab (h.1.trans h.2.symm)
    have hnonneg : ∀ y ∈ l.map (fun x => (x - listMean l) ^ 2), 0 ≤ y := by
      intro y hy
      simp only [List.mem_map] at hy
      obtain ⟨z, _, rfl⟩ := hy
      positivity
    rcases hne with h | h
    · exact sum_pos_of_mem _ hnonneg ((a - listMean l) ^ 2)
        (List.mem_map_of_mem _ ha)
        (pow_two_pos_of_ne_zero (sub_ne_zero.mpr h))
    · exact sum_pos_of_mem _ hnonneg ((b - listMean l) ^ 2)
        (List.mem_map_of_mem _ hb)
        (pow_two_pos_of_ne_zero (sub_ne_zero.mpr h))
  · have : (2 : ℝ) ≤ (l.length : ℝ) := by exact_mod_cast h2
    linarith

/-- C5: for every close column, window and num_std_dev ≥ 0, at every row
where all three Bollinger series are defined they satisfy
lower ≤ middle ≤ upper. -/
theorem claim_C5_bollinger_bands_order (close : List ℝ) (w : ℕ) (k : ℝ)
    (hk : 0 ≤ k) :
    ∀ i u m l,
      (calculate_bollinger_bands close w k).upper_band.getD i Val.nan = Val.fin u →
      (calculate_bollinger_bands close w k).middle_band.getD i Val.nan = Val.fin m →
      (calculate_bollinger_bands close w k).lower_band.getD i Val.nan = Val.fin l →
      l ≤ m ∧ m ≤ u := by
  intro i u m l hu hm hl
  by_cases hi : i < close.length
  · by_cases hA : w = 0 ∨ i + 1 < w
    · obtain ⟨hm2, hu2, hl2⟩ := bands_regime_A close w k i hA hi
      rw [getD_of_getElem? _ _ _ _ hu2] at hu
      simp at hu
    · by_cases hw1 : w = 1
      · obtain ⟨hm2, hu2, hl2⟩ := bands_regime_B close w k i hw1 hi
        rw [getD_of_getElem? _ _ _ _ hu2] at hu
        simp at hu
      · obtain ⟨hm2, hu2, hl2⟩ :=
          bands_regime_C close w k i (by omega) (by omega) hi
        rw [getD_of_getElem? _ _ _ _ hu2, Val.fin.injEq] at hu
        rw [getD_of_getElem? _ _ _ _ hm2, Val.fin.injEq] at hm
        rw [getD_of_getElem? _ _ _ _ hl2, Val.fin.injEq] at hl
        have hs : 0 ≤ sampleStd (window close w i) := Real.sqrt_nonneg _
        have hks : 0 ≤ k * sampleStd (window close w i) := mul_nonneg hk hs
        constructor <;> [rw [← hl, ← hm]; rw [← hm, ← hu]] <;> linarith
  · rw [getD_eq_getElem?_getD, List.getElem?_eq_none (by simp; omega)] at hu
    simp at hu

/-- Witness for C5: close = [0,1,2], w = 3, k = 1 at row 2, where the bands
are 0 ≤ 1 ≤ 2. -/
theorem claim_C5_bollinger_bands_order_witness :
    ((calculate_bollinger_bands [(0 : ℝ), 1, 2] 3 1).upper_band.getD 2 Val.nan =
      Val.fin 2) ∧ ((0 : ℝ) ≤ 1 ∧ (1 : ℝ) ≤ 2) := by
  obtain ⟨hm2, hu2, hl2⟩ :=
    bands_regime_C [(0 : ℝ), 1, 2] 3 1 2 (by norm_num) (by norm_num) (by norm_num)
  have hwin : window [(0 : ℝ), 1, 2] 3 2 = [0, 1, 2] := by
    simp [window]
  have hmean : listMean [(0 : ℝ), 1, 2] = 1 := by
    unfold listMean
    norm_num
  have hvar : sampleVar [(0 : ℝ), 1, 2] = 1 := by
    unfold sampleVar
    rw [hmean]
    norm_num
  have hstd : sampleStd [(0 : ℝ), 1, 2] = 1 := by
    unfold sampleStd
    rw [hvar, Real.sqrt_one]
  rw [hwin] at hm2 hu2 hl2
  rw [hstd] at hu2 hl2
  have hu := getD_of_getElem? _ 2 Val.nan _ hu2
  have hm := getD_of_getElem? _ 2 Val.nan _ hm2
  have hl := getD_of_getElem? _ 2 Val.nan _ hl2
  norm_num at hu hm hl
  exact ⟨hu, claim_C5_bollinger_bands_order [(0 : ℝ), 1, 2] 3 1
    (by norm_num) 2 2 1 0 hu hm hl⟩

/-- C4 counterexample: with the constant close column [5,5], window 2 and
num_std_dev = 1 > 0, the width at row 1 is defined and exactly 0, which is
not strictly positive. -/
theorem claim_C4_counterexample :
    (calculate_bollinger_bands_width [(5 : ℝ), 5] 2 1).getD 1 Val.nan =
      Val.fin 0 ∧ (0 : ℝ) < 1 ∧ ¬ (0 : ℝ) < 0 := by
  refine ⟨?_, by norm_num, by norm_num⟩
  have hC := width_regime_C [(5 : ℝ), 5] 2 1 1 (by norm_num) (by norm_num)
    (by norm_num)
  have hwin : window [(5 : ℝ), 5] 2 1 = [5, 5] := by simp [window]
  have hmean : listMean [(5 : ℝ), 5] = 5 := by unfold listMean; norm_num
  have hvar : sampleVar [(5 : ℝ), 5] = 0 := by
    unfold sampleVar
    rw [hmean]
    norm_num
  have hstd : sampleStd [(5 : ℝ), 5] = 0 := by
    unfold sampleStd
    rw [hvar, Real.sqrt_zero]
  rw [hwin, hstd] at hC
  rw [getD_of_getElem? _ 1 Val.nan _ hC]
  norm_num
  rw [Val.div_fin_fin_of_ne _ _ (by norm_num)]
  norm_num

/-- C4 amended: the Bollinger width equals (upper-lower)/middle elementwise;
it is undefined wherever any of the three band series is undefined; it is
non-finite wherever the middle band is exactly 0; with num_std_dev = 0 every
defined output is exactly 0; and with num_std_dev > 0 every defined output
is strictly positive at rows whose middle band is strictly positive and
whose window is not constant. -/
theorem claim_C4_bollinger_width (close : List ℝ) (w : ℕ) (k : ℝ) :
    (∀ i, i < close.length →
      (calculate_bollinger_bands_width close w k).getD i Val.nan =
        Val.div
          (Val.sub
            ((calculate_bollinger_bands close w k).upper_band.getD i Val.nan)
            ((calculate_bollinger_bands close w k).lower_band.getD i Val.nan))
          ((calculate_bollinger_bands close w k).middle_band.getD i Val.nan)) ∧
    (∀ i, i < close.length →
      ((calculate_bollinger_bands close w k).upper_band.getD i Val.nan = Val.nan ∨
        (calculate_bollinger_bands close w k).middle_band.getD i Val.nan = Val.nan ∨
        (calculate_bollinger_bands close w k).lower_band.getD i Val.nan = Val.nan) →
      (calculate_bollinger_bands_width close w k).getD i Val.nan = Val.nan) ∧
    (∀ i, (calculate_bollinger_bands close w k).middle_band.getD i Val.nan =
        Val.fin 0 →
      Val.isFin ((calculate_bollinger_bands_width close w k).getD i Val.nan) =
        false) ∧
    (k = 0 → ∀ i x,
      (calculate_bollinger_bands_width close w k).getD i Val.nan = Val.fin x →
      x = 0) ∧
    (0 < k → ∀ i x m,
      (calculate_bollinger_bands_width close w k).getD i Val.nan = Val.fin x →
      (calculate_bollinger_bands close w k).middle_band.getD i Val.nan =
        Val.fin m →
      0 < m →
      (∃ a ∈ window close w i, ∃ b ∈ window close w i, a ≠ b) →
      0 < x) := by
  refine ⟨?_, ?_, ?_, ?_, ?_⟩
  · intro i hi
    apply getD_of_getElem?
    simp only [calculate_bollinger_bands_width]
    rw [ewise_getElem?, ewise_getElem?,
      getElem?_eq_some_getD ((calculate_bollinger_bands close w k).upper_band)
        i Val.nan (by simpa using hi),
      getElem?_eq_some_getD ((calculate_bollinger_bands close w k).lower_band)
        i Val.nan (by simpa using hi),
      getElem?_eq_some_getD ((calculate_bollinger_bands close w k).middle_band)
        i Val.nan (by simpa using hi)]
    rfl
  · intro i hi hnan
    by_cases hA : w = 0 ∨ i + 1 < w
    · exact getD_of_getElem? _ _ _ _ (width_regime_nan close w k i (by omega) hi)
    · by_cases hw1 : w = 1
      · exact getD_of_getElem? _ _ _ _ (width_regime_nan close w k i (by omega) hi)
      · obtain ⟨hm2, hu2, hl2⟩ :=
          bands_regime_C close w k i (by omega) (by omega) hi
        rcases hnan with h | h | h
        · rw [getD_of_getElem? _ _ _ _ hu2] at h; simp at h
        · rw [getD_of_getElem? _ _ _ _ hm2] at h; simp at h
        · rw [getD_of_getElem? _ _ _ _ hl2] at h; simp at h
  · intro i hmid
    by_cases hi : i < close.length
    · by_cases hA : w = 0 ∨ i + 1 < w
      · obtain ⟨hm2, hu2, hl2⟩ := bands_regime_A close w k i hA hi
        rw [getD_of_getElem? _ _ _ _ hm2] at hmid
        simp at hmid
      · by_cases hw1 : w = 1
        · rw [getD_of_getElem? _ _ _ _ (width_regime_nan close w k i (by omega) hi)]
          rfl
        · have hC := width_regime_C close w k i (by omega) (by omega) hi
          obtain ⟨hm2, hu2, hl2⟩ :=
            bands_regime_C close w k i (by omega) (by omega) hi
          rw [getD_of_getElem? _ _ _ _ hm2, Val.fin.injEq] at hmid
          rw [getD_of_getElem? _ _ _ _ hC, hmid, Val.div_fin_fin_zero]
          split_ifs <;> rfl
    · rw [getD_eq_getElem?_getD, List.getElem?_eq_none (by simp; omega)] at hmid
      simp at hmid
  · intro hk0 i x hx
    subst hk0
    by_cases hi : i < close.length
    · by_cases hreg : w = 0 ∨ i + 1 < w ∨ w = 1
      · rw [getD_of_getElem? _ _ _ _
          (width_regime_nan close w 0 i hreg hi)] at hx
        simp at hx
      · have hC := width_regime_C close w 0 i (by omega) (by omega) hi
        rw [getD_of_getElem? _ _ _ _ hC] at hx
        rw [show (2 : ℝ) * (0 * sampleStd (window close w i)) = 0 by ring] at hx
        by_cases hm0 : (window close w i).sum / (w : ℝ) = 0
        · rw [hm0, Val.div_fin_fin_zero] at hx
          simp [lt_irrefl] at hx
        · rw [Val.div_fin_fin_of_ne _ _ hm0, Val.fin.injEq] at hx
          rw [← hx]
          simp
    · rw [getD_eq_getElem?_getD, List.getElem?_eq_none (by simp; omega)] at hx
      simp at hx
  · intro hkpos i x m hx hmid hm hne
    by_cases hi : i < close.length
    · by_cases hreg : w = 0 ∨ i + 1 < w ∨ w = 1
      · rw [getD_of_getElem? _ _ _ _
          (width_regime_nan close w k i hreg hi)] at hx
        simp at hx
      · have h2 : 2 ≤ w := by omega
        have hwi : w ≤ i + 1 := by omega
        have hC := width_regime_C close w k i h2 hwi hi
        obtain ⟨hm2, hu2, hl2⟩ := bands_regime_C close w k i h2 hwi hi
        rw [getD_of_getElem? _ _ _ _ hm2, Val.fin.injEq] at hmid
        obtain ⟨a, hal, b, hbl, hab⟩ := hne
        have hwl : (window close w i).length = w := window_length _ _ _ hwi hi
        have hvar : 0 < sampleVar (window close w i) :=
          sampleVar_pos _ (by rw [hwl]; exact h2) a b hal hbl hab
        have hstd : 0 < sampleStd (window close w i) := Real.sqrt_pos.mpr hvar
        rw [getD_of_getElem? _ _ _ _ hC, hmid,
          Val.div_fin_fin_of_ne _ _ (ne_of_gt hm), Val.fin.injEq] at hx
        rw [← hx]
        exact div_pos (by nlinarith [mul_pos hkpos hstd]) hm
    · rw [getD_eq_getElem?_getD, List.getElem?_eq_none (by simp; omega)] at hx
      simp at hx

/-- Witness for C4: close = [0,1,2], w = 3, k = 1 at row 2, where the width
is 2 and the hypotheses (positive middle band, non-constant window) hold. -/
theorem claim_C4_bollinger_width_witness :
    (calculate_bollinger_bands_width [(0 : ℝ), 1, 2] 3 1).getD 2 Val.nan =
      Val.fin 2 ∧ (0 : ℝ) < 2 := by
  have hC := width_regime_C [(0 : ℝ), 1, 2] 3 1 2 (by norm_num) (by norm_num)
    (by norm_num)
  obtain ⟨hm2, hu2, hl2⟩ := bands_regime_C [(0 : ℝ), 1, 2] 3 1 2 (by norm_num)
    (by norm_num) (by norm_num)
  have hwin : window [(0 : ℝ), 1, 2] 3 2 = [0, 1, 2] := by simp [window]
  have hmean : listMean [(0 : ℝ), 1, 2] = 1 := by unfold listMean; norm_num
  have hvar : sampleVar [(0 : ℝ), 1, 2] = 1 := by
    unfold sampleVar
    rw [hmean]
    norm_num
  have hstd : sampleStd [(0 : ℝ), 1, 2] = 1 := by
    unfold sampleStd
    rw [hvar, Real.sqrt_one]
  rw [hwin, hstd] at hC
  rw [hwin] at hm2
  have hwidth : (calculate_bollinger_bands_width [(0 : ℝ), 1, 2] 3 1).getD 2
      Val.nan = Val.fin 2 := by
    rw [getD_of_getElem? _ 2 Val.nan _ hC]
    norm_num
    rw [Val.div_fin_fin_of_ne _ _ (by norm_num)]
    norm_num
  have hmid : (calculate_bollinger_bands [(0 : ℝ), 1, 2] 3 1).middle_band.getD 2
      Val.nan = Val.fin 1 := by
    rw [getD_of_getElem? _ 2 Val.nan _ hm2]
    norm_num
  refine ⟨hwidth, ?_⟩
  exact (claim_C4_bollinger_width [(0 : ℝ), 1, 2] 3 1).2.2.2.2 (by norm_num)
    2 2 1 hwidth hmid (by norm_num)
    ⟨0, by rw [hwin]; norm_num, 1, by rw [hwin]; norm_num, by norm_num⟩

/-- Is this value an infinity? -/
def Val.isInf : Val α → Bool
  | Val.posInf => true
  | Val.negInf => true
  | _ => false

/-- Python round-half-even of a real number to an integer (the rounding of
the built-in round). -/
noncomputable def roundHalfEven (x : ℝ) : ℤ :=
  if Int.fract x < 1 / 2 then ⌊x⌋
  else if 1 / 2 < Int.fract x then ⌊x⌋ + 1
  else if Even ⌊x⌋ then ⌊x⌋ else ⌊x⌋ + 1

/-- Python round(x, 4): round-half-even at the fourth decimal place. -/
noncomputable def pyRound4 (x : ℝ) : ℝ := (roundHalfEven (x * 10 ^ 4) : ℝ) / 10 ^ 4

/-- Python round(v, 4) on a float: NaN and infinities pass through. -/
noncomputable def roundVal4 : Val ℝ → Val ℝ
  | Val.fin x => Val.fin (pyRound4 x)
  | v => v

/-- pandas Series.std(): the skipna sample standard deviation with
ddof = 1.  NaN when fewer than 2 non-NaN observations remain, and NaN when
the data contains an infinity (the float mean is then infinite and the
squared deviation of the infinite entry is inf - inf = NaN). -/
noncomputable def seriesStd (s : Series ℝ) : Val ℝ :=
  if s.any Val.isInf then Val.nan
  else if (s.filterMap Val.toFin).length < 2 then Val.nan
  else Val.fin (sampleStd (s.filterMap Val.toFin))

/-- src/volatility_metrics.py, get_return_std_dev: round(series.std(), 4). -/
noncomputable def get_return_std_dev (s : Series ℝ) : Val ℝ :=
  roundVal4 (seriesStd s)

theorem filterMap_toFin_length (s : Series α)
    (h : ∀ v ∈ s, Val.isFin v = true) :
    (s.filterMap Val.toFin).length = s.length := by
  induction s with
  | nil => rfl
  | cons v t ih =>
    have hv := h v (List.mem_cons_self v t)
    cases v with
    | fin x =>
      simp only [List.filterMap_cons, Val.toFin, List.length_cons]
      rw [ih (fun u hu => h u (List.mem_cons_of_mem _ hu))]
    | posInf => simp [Val.isFin] at hv
    | negInf => simp [Val.isFin] at hv
    | nan => simp [Val.isFin] at hv

theorem any_isInf_of_all_isFin (s : Series α)
    (h : ∀ v ∈ s, Val.isFin v = true) : s.any Val.isInf = false := by
  rw [List.any_eq_false]
  intro v hv
  have := h v hv
  cases v <;> simp_all [Val.isFin, Val.isInf]

/-- The sum of a constant list. -/
theorem sum_const_list (l : List α) (c : α) (h : ∀ x ∈ l, x = c) :
    l.sum = l.length * c := by
  induction l with
  | nil => simp
  | cons x t ih =>
    rw [List.sum_cons, h x (List.mem_cons_self x t),
      ih (fun y hy => h y (List.mem_cons_of_mem _ hy)), List.length_cons]
    push_cast
    ring

/-- A constant nonempty list has mean equal to the constant. -/
theorem listMean_const (l : List α) (c : α) (hne : l ≠ [])
    (h : ∀ x ∈ l, x = c) : listMean l = c := by
  unfold listMean
  rw [sum_const_list l c h]
  have hlen : l.length ≠ 0 := fun h0 => hne (List.length_eq_zero.mp h0)
  have h0 : (l.length : α) ≠ 0 := Nat.cast_ne_zero.mpr hlen
  field_simp

/-- The sample standard deviation of a constant nonempty list is 0. -/
theorem sampleStd_const (l : List ℝ) (c : ℝ) (hne : l ≠ [])
    (h : ∀ x ∈ l, x = c) : sampleStd l = 0 := by
  unfold sampleStd sampleVar
  have hm := listMean_const l c hne h
  have hzero : (l.map (fun x => (x - listMean l) ^ 2)).sum = 0 := by
    apply List.sum_eq_zero
    intro y hy
    simp only [List.mem_map] at hy
    obtain ⟨z, hz, rfl⟩ := hy
    rw [h z hz, hm]
    ring
  rw [hzero, zero_div, Real.sqrt_zero]

/-- Rounding zero to 4 decimal places gives zero. -/
theorem pyRound4_zero : pyRound4 0 = 0 := by
  unfold pyRound4 roundHalfEven
  norm_num

/-- C6 counterexample: on the empty series the code returns the NaN scalar
(the explicit-undefined float), not an empty result. -/
theorem claim_C6_counterexample :
    get_return_std_dev ([] : Series ℝ) = Val.nan ∧
    (Val.nan : Val ℝ) ≠ Val.fin 0 := by
  constructor
  · unfold get_return_std_dev seriesStd
    simp [roundVal4]
  · simp

/-- C6 amended: on an all-finite series of at least 2 values the result is
the sample standard deviation of the values rounded to 4 decimal places
half-to-even; a constant series of at least 2 values gives exactly 0; a
series of length at most 1 (including the empty series) gives the explicit
undefined value NaN. -/
theorem claim_C6_return_std_dev (s : Series ℝ) :
    ((∀ v ∈ s, Val.isFin v = true) → 2 ≤ s.length →
      get_return_std_dev s =
        Val.fin (pyRound4 (sampleStd (s.filterMap Val.toFin)))) ∧
    (∀ c : ℝ, (∀ v ∈ s, v = Val.fin c) → 2 ≤ s.length →
      get_return_std_dev s = Val.fin 0) ∧
    (s.length ≤ 1 → get_return_std_dev s = Val.nan) := by
  refine ⟨?_, ?_, ?_⟩
  · intro hfin hlen
    have h1 : s.any Val.isInf = false := any_isInf_of_all_isFin s hfin
    have h2 : (s.filterMap Val.toFin).length = s.length :=
      filterMap_toFin_length s hfin
    unfold get_return_std_dev seriesStd
    rw [if_neg (by rw [h1]; simp), if_neg (by rw [h2]; omega)]
    rfl
  · intro c hconst hlen
    have hfin : ∀ v ∈ s, Val.isFin v = true := by
      intro v hv
      rw [hconst v hv]
      rfl
    have h2 : (s.filterMap Val.toFin).length = s.length :=
      filterMap_toFin_length s hfin
    have hvals : ∀ x ∈ s.filterMap Val.toFin, x = c := by
      intro x hx
      rw [List.mem_filterMap] at hx
      obtain ⟨v, hv, htf⟩ := hx
      rw [hconst v hv] at htf
      exact (Option.some.inj (by simpa [Val.toFin] using htf)).symm
    have hstd0 : sampleStd (s.filterMap Val.toFin) = 0 := by
      apply sampleStd_const _ c _ hvals
      intro h0
      rw [h0] at h2
      simp at h2
      omega
    unfold get_return_std_dev seriesStd
    rw [if_neg (by rw [any_isInf_of_all_isFin s hfin]; simp),
      if_neg (by rw [h2]; omega), hstd0,
      show roundVal4 (Val.fin 0) = Val.fin (pyRound4 0) from rfl, pyRound4_zero]
  · intro hlen
    unfold get_return_std_dev seriesStd
    by_cases hinf : s.any Val.isInf
    · rw [if_pos hinf]
      rfl
    · rw [if_neg hinf, if_pos]
      · rfl
      · have := List.length_filterMap_le Val.toFin s
        omega

/-- Witness for C6 on the constant series [1, 1]. -/
theorem claim_C6_return_std_dev_witness :
    get_return_std_dev [Val.fin (1 : ℝ), Val.fin 1] = Val.fin 0 :=
  (claim_C6_return_std_dev [Val.fin (1 : ℝ), Val.fin 1]).2.1 1
    (by intro v hv; simp at hv; rcases hv with rfl | rfl <;> rfl) (by simp)

@[simp] theorem lift_any_isNan (l : List α) : (lift l).any Val.isNan = false := by
  induction l <;> simp_all [lift, Val.isNan]

/-- The slope of the degree-1 least-squares fit of np.polyfit against the
indices 0..n-1, in closed form (proved to minimize the squared error in
olsSlope_minimizes). -/
def olsSlope (ys : List α) : α :=
  let n : α := ys.length
  let sx : α := ((List.range ys.length).map (fun (k : ℕ) => (k : α))).sum
  let sy : α := ys.sum
  let sxy : α := ((List.range ys.length).map (fun (k : ℕ) => (k : α) * ys.getD k 0)).sum
  let sxx : α := ((List.range ys.length).map (fun (k : ℕ) => ((k : α)) ^ 2)).sum
  (n * sxy - sx * sy) / (n * sxx - sx ^ 2)

/-- The squared error of the line y = a t + b against the list values at
t = 0..n-1. -/
def lsqCost (ys : List α) (a b : α) : α :=
  ((List.range ys.length).map (fun (k : ℕ) => (ys.getD k 0 - (a * (k : α) + b)) ^ 2)).sum

/-- The inner helper calculate_slope of src/volume_metrics.py,
calculate_volume_trend: NaN for windows of fewer than 2 values or with a
NaN, otherwise the np.polyfit degree-1 slope of the values against their
local indices.  (The all-finite guard covers infinite inputs, which the
claims never produce: the float fit of data containing an infinity is not
a number.) -/
def calculate_slope (win : Series α) : Val α :=
  if win.length < 2 ∨ win.any Val.isNan then Val.nan
  else if win.all Val.isFin then Val.fin (olsSlope (win.filterMap Val.toFin))
  else Val.nan

/-- src/volume_metrics.py, calculate_volume_trend:
df['volume'].rolling(window=w).apply(calculate_slope).  With the default
min_periods = w, the first w-1 rows are NaN and windows containing a NaN
(fewer than w observations) are NaN without invoking the helper. -/
def calculate_volume_trend (volume : Series α) (w : ℕ) : Series α :=
  (List.range volume.length).map
    (fun i =>
      if w = 0 ∨ i + 1 < w then Val.nan
      else if (window volume w i).any Val.isNan then Val.nan
      else calculate_slope (window volume w i))

@[simp] theorem calculate_volume_trend_length (volume : Series α) (w : ℕ) :
    (calculate_volume_trend volume w).length = volume.length := by
  simp [calculate_volume_trend]

theorem calculate_volume_trend_getElem? (volume : Series α) (w i : ℕ)
    (hi : i < volume.length) :
    (calculate_volume_trend volume w)[i]? =
      some (if w = 0 ∨ i + 1 < w then Val.nan
        else if (window volume w i).any Val.isNan then Val.nan
        else calculate_slope (window volume w i)) := by
  simp [calculate_volume_trend, List.getElem?_range, hi]

/-- A list sum as a sum over indices. -/
theorem sum_eq_range_getD (ys : List α) :
    ys.sum = ((List.range ys.length).map (fun k => ys.getD k 0)).sum := by
  induction ys with
  | nil => simp
  | cons x t ih =>
    rw [List.length_cons, List.range_succ_eq_map, List.map_cons, List.sum_cons,
      List.getD_cons_zero, List.map_map]
    have hcomp : ((fun k => (x :: t).getD k 0) ∘ Nat.succ) =
        fun k => t.getD k 0 := by
      funext k
      simp
    rw [hcomp]
    simp [ih]

/-- Expansion of the squared error into the five moment sums. -/
theorem cost_expand (y : ℕ → α) (a b : α) (N : ℕ) :
    ((List.range N).map (fun (k : ℕ) => (y k - (a * (k : α) + b)) ^ 2)).sum =
      ((List.range N).map (fun (k : ℕ) => (y k) ^ 2)).sum
      - 2 * a * ((List.range N).map (fun (k : ℕ) => (k : α) * y k)).sum
      - 2 * b * ((List.range N).map (fun (k : ℕ) => y k)).sum
      + a ^ 2 * ((List.range N).map (fun (k : ℕ) => ((k : α)) ^ 2)).sum
      + 2 * a * b * ((List.range N).map (fun (k : ℕ) => (k : α))).sum
      + N * b ^ 2 := by
  induction N with
  | zero => simp
  | succ m ih =>
    rw [List.range_succ]
    simp only [List.map_append, List.sum_append, List.map_cons, List.map_nil,
      List.sum_cons, List.sum_nil]
    rw [ih, Nat.cast_succ]
    ring

/-- Gauss sum of the indices 0..N-1. -/
theorem sum_range_cast (N : ℕ) :
    ((List.range N).map (fun (k : ℕ) => (k : α))).sum = N * ((N : α) - 1) / 2 := by
  induction N with
  | zero => simp
  | succ m ih =>
    rw [List.range_succ]
    simp only [List.map_append, List.sum_append, List.map_cons, List.map_nil,
      List.sum_cons, List.sum_nil]
    rw [ih, Nat.cast_succ]
    ring

/-- Sum of the squared indices 0..N-1. -/
theorem sum_range_sq_cast (N : ℕ) :
    ((List.range N).map (fun (k : ℕ) => ((k : α)) ^ 2)).sum =
      N * ((N : α) - 1) * (2 * N - 1) / 6 := by
  induction N with
  | zero => simp
  | succ m ih =>
    rw [List.range_succ]
    simp only [List.map_append, List.sum_append, List.map_cons, List.map_nil,
      List.sum_cons, List.sum_nil]
    rw [ih, Nat.cast_succ]
    ring

/-- The quadratic error form is minimized at the closed-form least-squares
coefficients whenever the design is non-degenerate (n Sxx - Sx^2 > 0). -/
theorem quad_min (n Sx Sy Sxy Sxx Syy a b A B : α) (hn : 0 < n)
    (hD : 0 < n * Sxx - Sx ^ 2)
    (hA : A = (n * Sxy - Sx * Sy) / (n * Sxx - Sx ^ 2))
    (hB : B = (Sy - A * Sx) / n) :
    Syy - 2 * A * Sxy - 2 * B * Sy + A ^ 2 * Sxx + 2 * A * B * Sx + n * B ^ 2
      ≤ Syy - 2 * a * Sxy - 2 * b * Sy + a ^ 2 * Sxx + 2 * a * b * Sx
        + n * b ^ 2 := by
  have hD2 : n * Sxx - Sx ^ 2 ≠ 0 := ne_of_gt hD
  have hn2 : n ≠ 0 := ne_of_gt hn
  rw [← sub_nonneg]
  have key :
      (Syy - 2 * a * Sxy - 2 * b * Sy + a ^ 2 * Sxx + 2 * a * b * Sx
          + n * b ^ 2)
        - (Syy - 2 * A * Sxy - 2 * B * Sy + A ^ 2 * Sxx + 2 * A * B * Sx
          + n * B ^ 2) =
      ((n * b - (Sy - a * Sx)) ^ 2 + (n * Sxx - Sx ^ 2) * (a - A) ^ 2) / n := by
    subst hB
    subst hA
    field_simp
    ring
  rw [key]
  apply div_nonneg _ hn.le
  have h1 := sq_nonneg (n * b - (Sy - a * Sx))
  have h2 := mul_nonneg hD.le (sq_nonneg (a - A))
  linarith

/-- The squared error of a list fit, expanded into its moment sums. -/
theorem lsqCost_expand (ys : List α) (a b : α) :
    lsqCost ys a b =
      ((List.range ys.length).map (fun (k : ℕ) => (ys.getD k 0) ^ 2)).sum
      - 2 * a * ((List.range ys.length).map
          (fun (k : ℕ) => (k : α) * ys.getD k 0)).sum
      - 2 * b * ((List.range ys.length).map (fun (k : ℕ) => ys.getD k 0)).sum
      + a ^ 2 * ((List.range ys.length).map (fun (k : ℕ) => ((k : α)) ^ 2)).sum
      + 2 * a * b * ((List.range ys.length).map (fun (k : ℕ) => (k : α))).sum
      + (ys.length : α) * b ^ 2 := by
  unfold lsqCost
  exact cost_expand (fun k => ys.getD k 0) a b ys.length

/-- olsSlope is the slope of an ordinary-least-squares line: some intercept
makes its squared error at most that of every line, for every list of at
least two values. -/
theorem olsSlope_minimizes (ys : List α) (h2 : 2 ≤ ys.length) :
    ∃ b, ∀ a2 b2, lsqCost ys (olsSlope ys) b ≤ lsqCost ys a2 b2 := by
  have hn0 : (0 : α) < (ys.length : α) := by
    have : 0 < ys.length := by omega
    exact_mod_cast this
  have hn2 : (2 : α) ≤ (ys.length : α) := by exact_mod_cast h2
  have hD : (0 : α) < (ys.length : α) *
      ((List.range ys.length).map (fun (k : ℕ) => ((k : α)) ^ 2)).sum -
      (((List.range ys.length).map (fun (k : ℕ) => (k : α))).sum) ^ 2 := by
    rw [sum_range_cast, sum_range_sq_cast]
    have h1 : (0 : α) < (ys.length : α) - 1 := by linarith
    have heq : (ys.length : α) *
        ((ys.length : α) * ((ys.length : α) - 1) * (2 * (ys.length : α) - 1) / 6)
        - ((ys.length : α) * ((ys.length : α) - 1) / 2) ^ 2 =
        (ys.length : α) ^ 2 * ((ys.length : α) - 1) * ((ys.length : α) + 1) / 12 := by
      ring
    rw [heq]
    apply div_pos (mul_pos (mul_pos (pow_pos hn0 2) h1) (by linarith))
    norm_num
  have hslope : olsSlope ys =
      ((ys.length : α) * (((List.range ys.length).map
          (fun (k : ℕ) => (k : α) * ys.getD k 0)).sum) -
        (((List.range ys.length).map (fun (k : ℕ) => (k : α))).sum) *
        (((List.range ys.length).map (fun (k : ℕ) => ys.getD k 0)).sum)) /
      ((ys.length : α) * (((List.range ys.length).map
          (fun (k : ℕ) => ((k : α)) ^ 2)).sum) -
        (((List.range ys.length).map (fun (k : ℕ) => (k : α))).sum) ^ 2) := by
    simp only [olsSlope]
    rw [sum_eq_range_getD ys]
  refine ⟨((((List.range ys.length).map (fun (k : ℕ) => ys.getD k 0)).sum) -
      olsSlope ys * (((List.range ys.length).map
        (fun (k : ℕ) => (k : α))).sum)) / (ys.length : α), ?_⟩
  intro a2 b2
  rw [lsqCost_expand, lsqCost_expand]
  exact quad_min _ _ _ _ _ _ a2 b2 _ _ hn0 hD hslope rfl

/-- C9: calculate_volume_trend is index-aligned with the volume column; a
row is undefined when fewer than w rows precede it, when its window holds a
NaN, or when the window holds fewer than 2 observations (w = 1); at every
other row the output is the slope of the ordinary-least-squares line fitted
to the w trailing values against local indices 0..w-1 (olsSlope, which
minimizes the squared error among all lines). -/
theorem claim_C9_volume_trend (volume : Series ℚ) (w : ℕ) (hw : 0 < w) :
    (calculate_volume_trend volume w).length = volume.length ∧
    (∀ i < volume.length, i + 1 < w →
      (calculate_volume_trend volume w).getD i Val.nan = Val.nan) ∧
    (∀ i < volume.length, (window volume w i).any Val.isNan = true →
      (calculate_volume_trend volume w).getD i Val.nan = Val.nan) ∧
    (w = 1 → ∀ i < volume.length,
      (calculate_volume_trend volume w).getD i Val.nan = Val.nan) ∧
    (∀ i < volume.length, w ≤ i + 1 → 2 ≤ w → ∀ ys : List ℚ,
      window volume w i = lift ys →
      (calculate_volume_trend volume w).getD i Val.nan = Val.fin (olsSlope ys) ∧
      ∃ b, ∀ a2 b2, lsqCost ys (olsSlope ys) b ≤ lsqCost ys a2 b2) := by
  refine ⟨by simp, ?_, ?_, ?_, ?_⟩
  · intro i hi hiw
    rw [getD_eq_getElem?_getD, calculate_volume_trend_getElem? volume w i hi,
      if_pos (by omega)]
    rfl
  · intro i hi hnan
    rw [getD_eq_getElem?_getD, calculate_volume_trend_getElem? volume w i hi]
    by_cases hc : w = 0 ∨ i + 1 < w
    · rw [if_pos hc]
      rfl
    · rw [if_neg hc, if_pos hnan]
      rfl
  · intro hw1 i hi
    subst hw1
    rw [getD_eq_getElem?_getD, calculate_volume_trend_getElem? volume 1 i hi,
      if_neg (by omega)]
    by_cases hnan : (window volume 1 i).any Val.isNan
    · rw [if_pos hnan]
      rfl
    · rw [if_neg hnan]
      unfold calculate_slope
      rw [if_pos]
      · rfl
      · left
        rw [window_length volume 1 i (by omega) hi]
        omega
  · intro i hi hwi h2 ys hys
    have hlen : ys.length = w := by
      have := window_length volume w i hwi hi
      rw [hys] at this
      simpa using this
    have hys2 : 2 ≤ ys.length := by omega
    refine ⟨?_, olsSlope_minimizes ys hys2⟩
    rw [getD_eq_getElem?_getD, calculate_volume_trend_getElem? volume w i hi,
      if_neg (by omega), hys, lift_any_isNan]
    rw [if_neg (by simp)]
    unfold calculate_slope
    rw [if_neg (by simp [hlen]; omega), if_pos (lift_all_isFin ys),
      lift_filterMap_toFin]
    rfl

/-- Witness for C9: volume [1, 3] with window 2 at row 1 has slope 2. -/
theorem claim_C9_volume_trend_witness :
    (calculate_volume_trend [Val.fin (1 : ℚ), Val.fin 3] 2).getD 1 Val.nan =
      Val.fin 2 := by
  have hwin : window [Val.fin (1 : ℚ), Val.fin 3] 2 1 = lift [1, 3] := rfl
  have h := ((claim_C9_volume_trend [Val.fin (1 : ℚ), Val.fin 3] 2
    (by decide)).2.2.2.2 1 (by decide) (by decide) (by decide) [1, 3] hwin).1
  refine h.trans ?_
  norm_num [olsSlope, List.range_succ]

/-- A Python datetime.datetime value (naive, no timezone). -/
structure DateTime where
  year : ℕ
  month : ℕ
  day : ℕ
  hour : ℕ
  minute : ℕ
  second : ℕ
deriving DecidableEq, Repr

/-- Gregorian leap year. -/
def isLeap (y : ℕ) : Bool := (y % 4 == 0 && y % 100 != 0) || y % 400 == 0

/-- Days in a month of the proleptic Gregorian calendar. -/
def daysInMonth (y m : ℕ) : ℕ :=
  match m with
  | 1 => 31
  | 2 => if isLeap y then 29 else 28
  | 3 => 31
  | 4 => 30
  | 5 => 31
  | 6 => 30
  | 7 => 31
  | 8 => 31
  | 9 => 30
  | 10 => 31
  | 11 => 30
  | 12 => 31
  | _ => 0

/-- Days in year y before month m. -/
def daysBeforeMonth (y m : ℕ) : ℕ :=
  ((List.range (m - 1)).map (fun j => daysInMonth y (j + 1))).sum

/-- Python date.toordinal(): day 1 is 0001-01-01 of the proleptic Gregorian
calendar. -/
def toordinal (y m d : ℕ) : ℕ :=
  365 * (y - 1) + (y - 1) / 4 - (y - 1) / 100 + (y - 1) / 400
    + daysBeforeMonth y m + d

/-- Python date.weekday(): Monday = 0 ... Sunday = 6. -/
def pyWeekday (y m d : ℕ) : ℕ := (toordinal y m d + 6) % 7

/-- Full English month name, as Python strftime with format B. -/
def monthName : ℕ → String
  | 1 => "January"
  | 2 => "February"
  | 3 => "March"
  | 4 => "April"
  | 5 => "May"
  | 6 => "June"
  | 7 => "July"
  | 8 => "August"
  | 9 => "September"
  | 10 => "October"
  | 11 => "November"
  | 12 => "December"
  | _ => ""

/-- Full English weekday name from the Monday=0 weekday, as Python strftime
with format A. -/
def dayName : ℕ → String
  | 0 => "Monday"
  | 1 => "Tuesday"
  | 2 => "Wednesday"
  | 3 => "Thursday"
  | 4 => "Friday"
  | 5 => "Saturday"
  | 6 => "Sunday"
  | _ => ""

/-- The ordinal of the Monday starting ISO week 1 of year y (CPython
datetime._isoweek1monday). -/
def isoWeek1Monday (y : ℕ) : ℤ :=
  let firstday : ℤ := toordinal y 1 1
  let firstweekday := (firstday + 6) % 7
  let week1monday := firstday - firstweekday
  if 3 < firstweekday then week1monday + 7 else week1monday

/-- The ISO-8601 week number of a date (CPython date.isocalendar). -/
def isoWeekNumber (y m d : ℕ) : ℕ :=
  let today : ℤ := toordinal y m d
  let week := (today - isoWeek1Monday y).fdiv 7
  if week < 0 then ((today - isoWeek1Monday (y - 1)).fdiv 7 + 1).toNat
  else if 52 ≤ week ∧ isoWeek1Monday (y + 1) ≤ today then 1
  else (week + 1).toNat

/-- The dictionary built by extract_date_components: seven calendar
features. -/
structure CalendarRecord where
  year : ℕ
  quarter : ℕ
  month_number : ℕ
  month_name : String
  week_number : ℕ
  day_of_week_number : ℕ
  day_of_week_name : String
deriving DecidableEq, Repr

/-- The seven features of a calendar date (they depend only on the date). -/
def featuresOfDate (y m d : ℕ) : CalendarRecord :=
  { year := y
    quarter := (m - 1) / 3 + 1
    month_number := m
    month_name := monthName m
    week_number := isoWeekNumber y m d
    day_of_week_number := pyWeekday y m d + 1
    day_of_week_name := dayName (pyWeekday y m d) }

/-- The features dictionary of a datetime value. -/
def features (dt : DateTime) : CalendarRecord :=
  featuresOfDate dt.year dt.month dt.day

/-- The number encoded by a run of ASCII digits. -/
def digitsToNat (cs : List Char) : ℕ :=
  cs.foldl (fun acc c => 10 * acc + (c.toNat - 48)) 0

/-- Python datetime.strptime with format "%Y-%m-%d %H:%M:%S", as the
composition of the _strptime regex (4-digit year; 1-2 digit month, day,
hour, minute, second with the leading-zero forms the regex alternations
admit; literal separators; the format space matching a nonempty whitespace
run; the whole string consumed) with the datetime constructor validation
(year at least 1, day within the month, second at most 59).  ASCII digits
and whitespace stand in for the unicode classes of the Python regex. -/
def parseTimestamp (s : String) : Option DateTime :=
  let cs := s.toList
  let ys := cs.takeWhile Char.isDigit
  let r1 := cs.dropWhile Char.isDigit
  if ys.length ≠ 4 then none else
  match r1 with
  | '-' :: r2 =>
    let ms := r2.takeWhile Char.isDigit
    let r3 := r2.dropWhile Char.isDigit
    if ms.length = 0 ∨ 2 < ms.length then none else
    let m := digitsToNat ms
    if m < 1 ∨ 12 < m then none else
    match r3 with
    | '-' :: r4 =>
      let ds := r4.takeWhile Char.isDigit
      let r5 := r4.dropWhile Char.isDigit
      if ds.length = 0 ∨ 2 < ds.length then none else
      let d := digitsToNat ds
      if d < 1 ∨ 31 < d then none else
      let ws := r5.takeWhile Char.isWhitespace
      let r6 := r5.dropWhile Char.isWhitespace
      if ws.length = 0 then none else
      let hs := r6.takeWhile Char.isDigit
      let r7 := r6.dropWhile Char.isDigit
      if hs.length = 0 ∨ 2 < hs.length then none else
      let h := digitsToNat hs
      if 23 < h then none else
      match r7 with
      | ':' :: r8 =>
        let mins := r8.takeWhile Char.isDigit
        let r9 := r8.dropWhile Char.isDigit
        if mins.length = 0 ∨ 2 < mins.length then none else
        let mi := digitsToNat mins
        if 59 < mi then none else
        match r9 with
        | ':' :: r10 =>
          let ss := r10.takeWhile Char.isDigit
          let r11 := r10.dropWhile Char.isDigit
          if ss.length = 0 ∨ 2 < ss.length then none else
          let sec := digitsToNat ss
          if 61 < sec then none else
          if r11 ≠ [] then none else
          let y := digitsToNat ys
          if y < 1 then none else
          if daysInMonth y m < d then none else
          if 59 < sec then none else
          some ⟨y, m, d, h, mi, sec⟩
        | _ => none
      | _ => none
    | _ => none
  | _ => none

/-- The Python argument of extract_date_components: a datetime object, a
string, or a value of any other type (carrying only a description). -/
inductive TimestampInput where
  | dt (d : DateTime)
  | str (s : String)
  | other (desc : String)
deriving DecidableEq, Repr

/-- The two error kinds extract_date_components raises: ValueError with the
format message, TypeError with the type message. -/
inductive ExtractError where
  | formatError (msg : String)
  | typeError (msg : String)
deriving DecidableEq, Repr

/-- src/date_extraction.py, extract_date_components: accept a datetime as
is; parse a string with strptime, re-raising a parse failure as the format
ValueError; reject every other input type with the TypeError. -/
def extract_date_components : TimestampInput → Except ExtractError CalendarRecord
  | TimestampInput.dt d => Except.ok (features d)
  | TimestampInput.str s =>
      match parseTimestamp s with
      | some d => Except.ok (features d)
      | none => Except.error (ExtractError.formatError
          "Timestamp string must match \x27YYYY-MM-DD HH:MM:SS\x27")
  | TimestampInput.other _ => Except.error (ExtractError.typeError
      "timestamp_input must be a datetime object or a timestamp string")

/-- C7: the two documented example timestamps decompose to exactly the
stated records, with ISO-8601 week numbering (including a 53-week year) and
the Monday=1..Sunday=7 day convention. -/
theorem claim_C7_extract_examples :
    extract_date_components (TimestampInput.str "2023-10-26 14:30:00") =
      Except.ok { year := 2023, quarter := 4, month_number := 10,
                  month_name := "October", week_number := 43,
                  day_of_week_number := 4, day_of_week_name := "Thursday" } ∧
    extract_date_components (TimestampInput.str "2020-12-28 12:00:00") =
      Except.ok { year := 2020, quarter := 4, month_number := 12,
                  month_name := "December", week_number := 53,
                  day_of_week_number := 1, day_of_week_name := "Monday" } := by
  constructor <;> rfl

/-- Modelled from the spec: the exact literal pattern
YYYY-MM-DD HH:MM:SS — nineteen characters, 4-2-2 digit date with dashes, a
single space, and 2-2-2 digit time with colons. -/
def specStrictPattern (s : String) : Bool :=
  match s.toList with
  | [y1, y2, y3, y4, s1, m1, m2, s2, d1, d2, sp, h1, h2, c1, n1, n2, c2, e1, e2] =>
      y1.isDigit && y2.isDigit && y3.isDigit && y4.isDigit &&
      s1 == '-' && m1.isDigit && m2.isDigit && s2 == '-' &&
      d1.isDigit && d2.isDigit && sp == ' ' &&
      h1.isDigit && h2.isDigit && c1 == ':' &&
      n1.isDigit && n2.isDigit && c2 == ':' && e1.isDigit && e2.isDigit
  | _ => false

/-- C8 counterexample: the string "2023-1-05 14:30:00" does not match the
exact pattern YYYY-MM-DD HH:MM:SS (its month has one digit), yet the code
parses it and returns normally instead of raising the format error. -/
theorem claim_C8_counterexample :
    specStrictPattern "2023-1-05 14:30:00" = false ∧
    extract_date_components (TimestampInput.str "2023-1-05 14:30:00") =
      Except.ok { year := 2023, quarter := 1, month_number := 1,
                  month_name := "January", week_number := 1,
                  day_of_week_number := 4, day_of_week_name := "Thursday" } := by
  constructor <;> rfl

/-- C8 amended: non-date non-string inputs raise the type error naming the
two accepted shapes; strings the strptime grammar rejects (among them all
the documented near-misses: missing time-of-day, slash separators, the ISO
T separator, reordered components) raise the format error identifying the
required pattern; and the function returns normally exactly on the inputs
the strptime grammar accepts — which also admits 1-digit month, day, hour,
minute and second fields. -/
theorem claim_C8_extract_errors :
    (∀ x, extract_date_components (TimestampInput.other x) =
      Except.error (ExtractError.typeError
        "timestamp_input must be a datetime object or a timestamp string")) ∧
    (∀ s, parseTimestamp s = none →
      extract_date_components (TimestampInput.str s) =
        Except.error (ExtractError.formatError
          "Timestamp string must match \x27YYYY-MM-DD HH:MM:SS\x27")) ∧
    (∀ s d, parseTimestamp s = some d →
      extract_date_components (TimestampInput.str s) =
        Except.ok (features d)) ∧
    (parseTimestamp "2023-10-26" = none ∧
      parseTimestamp "10/26/2023 14:30:00" = none ∧
      parseTimestamp "2023-10-26T14:30:00" = none ∧
      parseTimestamp "26-10-2023 14:30:00" = none ∧
      parseTimestamp "2023/10/26 14:30:00" = none ∧
      parseTimestamp "invalid date string" = none) := by
  refine ⟨fun x => rfl, ?_, ?_, by repeat constructor⟩
  · intro s h
    simp only [extract_date_components, h]
  · intro s d h
    simp only [extract_date_components, h]

/-- Witness for C8: the ISO-T near-miss raises the format error with the
required pattern in its message. -/
theorem claim_C8_extract_errors_witness :
    extract_date_components (TimestampInput.str "2023-10-26T14:30:00") =
      Except.error (ExtractError.formatError
        "Timestamp string must match \x27YYYY-MM-DD HH:MM:SS\x27") :=
  claim_C8_extract_errors.2.1 "2023-10-26T14:30:00" rfl

/-- The calendar date denoted by an accepted input. -/
def dateOf : TimestampInput → Option (ℕ × ℕ × ℕ)
  | TimestampInput.dt d => some (d.year, d.month, d.day)
  | TimestampInput.str s =>
      (parseTimestamp s).map (fun d => (d.year, d.month, d.day))
  | TimestampInput.other _ => none

/-- C10: two accepted inputs denoting the same calendar date decompose to
identical records — no output field depends on the time of day. -/
theorem claim_C10_time_invariance :
    ∀ i1 i2 r1 r2, extract_date_components i1 = Except.ok r1 →
      extract_date_components i2 = Except.ok r2 →
      dateOf i1 = dateOf i2 → r1 = r2 := by
  have hof : ∀ i r, extract_date_components i = Except.ok r →
      ∃ y m d, dateOf i = some (y, m, d) ∧ r = featuresOfDate y m d := by
    intro i r h
    cases i with
    | dt d =>
      simp only [extract_date_components, Except.ok.injEq] at h
      exact ⟨d.year, d.month, d.day, rfl, h.symm⟩
    | str s =>
      cases hp : parseTimestamp s with
      | none => simp [extract_date_components, hp] at h
      | some d =>
        simp only [extract_date_components, hp, Except.ok.injEq] at h
        exact ⟨d.year, d.month, d.day, by simp [dateOf, hp], h.symm⟩
    | other x => simp [extract_date_components] at h
  intro i1 i2 r1 r2 h1 h2 hd
  obtain ⟨y1, m1, d1, hdate1, hr1⟩ := hof i1 r1 h1
  obtain ⟨y2, m2, d2, hdate2, hr2⟩ := hof i2 r2 h2
  rw [hdate1, hdate2] at hd
  obtain ⟨he1, he2, he3⟩ : y1 = y2 ∧ m1 = m2 ∧ d1 = d2 := by
    simpa using hd
  rw [hr1, hr2, he1, he2, he3]

/-- Witness for C10: the parsed string at 14:30:00 and the datetime object
at midnight of the same date yield the same record. -/
theorem claim_C10_time_invariance_witness :
    features ⟨2023, 10, 26, 14, 30, 0⟩ = features ⟨2023, 10, 26, 0, 0, 0⟩ :=
  claim_C10_time_invariance (TimestampInput.dt ⟨2023, 10, 26, 14, 30, 0⟩)
    (TimestampInput.dt ⟨2023, 10, 26, 0, 0, 0⟩) _ _ rfl rfl rfl

end Stats
